import Mathlib

/-!
Verification development for the ICMP ping probe engine
(`ping.go`: `Pinger`, `PingStats`, `PingSummary`).

The Go source is embedded shallowly:

* The in-flight request table `Pinger.queue` (a Go `map[int]task` guarded by
  `p.mux`) is embedded as an association list with Go map semantics
  (assignment overwrites, delete removes, lookup returns an optional value).
* The `sync.Mutex` discipline of `unqueuePkt` is made explicit: `Unlock` of an
  unlocked mutex is a Go runtime fatal error, which the embedding surfaces as
  `GoResult.fatal` (a Go runtime throw does not run deferred functions and
  terminates the process).
* `float64` values are embedded as exact fractions (`Frac`) extended with the
  IEEE special values NaN and the two infinities (`GoFloat`).  All numbers
  occurring in this program (nanosecond durations well below 2^53, and their
  quotients by 10^6) are represented exactly by `float64`, and IEEE addition,
  subtraction, multiplication and division return the exactly rounded result,
  so the exact-fraction embedding agrees with the source on this domain; the
  special-value propagation (0/0 = NaN, sqrt of NaN = NaN, NaN times anything
  = NaN) follows IEEE 754 exactly.  `math.Sqrt` on nonnegative finite values
  is embedded as an arbitrary oracle `rsqrt`, because no claim depends on the
  numeric value of a square root, only on NaN propagation.
* `math/rand` ids, the transport (`conn.WriteTo` and `conn.ReadFrom`) and the
  byte-level `icmp.ParseMessage` of the external `golang.org/x/net` library
  are embedded as explicit parameters/oracles of the functions that use them.
* Wall-clock readings (`time.Now`, `time.Since`) are passed in as explicit
  integer nanosecond timestamps.
-/

namespace PingProof

/-- Result of running a piece of Go code that can hit an unrecoverable
runtime fault (`fatal error:` followed by a message, e.g. unlocking an
unlocked `sync.Mutex`).  A fatal runtime error terminates the whole process:
deferred functions do not run and no value is returned. -/
inductive GoResult (α : Type) where
  | ok (a : α)
  | fatal (msg : String)
deriving DecidableEq

/-- Unlock of a `sync.Mutex`: legal only while the mutex is held (`true`);
unlocking an unlocked mutex is a runtime fatal error. -/
def mutexUnlock (locked : Bool) : GoResult Bool :=
  if locked then GoResult.ok false
  else GoResult.fatal "sync: unlock of unlocked mutex"

/-- Struct `task` from ping.go: one in-flight probe request.  `sendTime` is a
nanosecond timestamp; `addr` stands for the target IP address. -/
structure task where
  id : Nat
  seq : Nat
  sendTime : Int
  addr : Nat
deriving DecidableEq

/-- Field `Pinger.queue`, the in-flight request table: a Go `map[int]task`,
embedded as an association list whose keys are kept unique by the
map operations below. -/
abbrev Queue := List (Nat × task)

/-- Go map read `t, ok := p.queue[id]`. -/
def mapLookup (q : Queue) (id : Nat) : Option task :=
  (q.find? (fun e => e.1 == id)).map (fun e => e.2)

/-- Go map delete `delete(p.queue, id)`. -/
def mapDelete (q : Queue) (id : Nat) : Queue :=
  q.filter (fun e => e.1 != id)

/-- Go map assignment `p.queue[id] = t`: stores `t` under `id`,
replacing any entry already present for that key. -/
def mapAssign (q : Queue) (id : Nat) (t : task) : Queue :=
  mapDelete q id ++ [(id, t)]

/-- Method `Pinger.unqueuePkt` from ping.go, with the mutex discipline explicit.
The function locks `p.mux` and defers an `Unlock`.  On the not-found path the
source also calls `p.mux.Unlock()` explicitly before returning, so the
deferred `Unlock` then runs on an already-unlocked mutex: a runtime fatal
error.  Returns the Go pair `(task, error)` (the zero `task` together with an
error message when the id is unknown) and the updated queue. -/
def unqueuePkt (q : Queue) (id : Nat) : GoResult (task × Option String × Queue) :=
  -- p.mux.Lock(): the mutex is now held.
  let mux : Bool := true
  match mapLookup q id with
  | none =>
    -- explicit p.mux.Unlock() on the not-found path
    match mutexUnlock mux with
    | GoResult.fatal m => GoResult.fatal m
    | GoResult.ok mux2 =>
      -- the deferred p.mux.Unlock() runs as the function returns
      match mutexUnlock mux2 with
      | GoResult.fatal m => GoResult.fatal m
      | GoResult.ok _ =>
        GoResult.ok (⟨0, 0, 0, 0⟩, some "Invalid ID: no request was sent with this id", q)
  | some t =>
    -- found: delete the entry; the deferred p.mux.Unlock() runs normally
    match mutexUnlock mux with
    | GoResult.fatal m => GoResult.fatal m
    | GoResult.ok _ => GoResult.ok (t, none, mapDelete q id)

/-- Constant `MaxSendRetries` from ping.go. -/
def MaxSendRetries : Nat := 5

/-- Outcome of one `p.conn.WriteTo` call, as classified by `sendICMP`:
success, a `*net.OpError` wrapping `syscall.ENOBUFS`, or any other error. -/
inductive WriteResult where
  | ok
  | enobufs
  | otherErr
deriving DecidableEq

/-- The retry loop of `Pinger.sendICMP`, parameterised by the transport:
`f i` is the outcome of the i-th `WriteTo` call.  Returns the number of
`WriteTo` calls performed and the error value the loop contributes to
the return value of `sendICMP`.  On `enobufs` the source increments `retries` and
retries until `retries == MaxSendRetries`, then logs and breaks; on any
other outcome (success, or an error that is not an ENOBUFS `OpError`) it
breaks at once.  No branch assigns the write error to the function result,
so the loop always contributes `nil`.  The fuel argument is an upper bound
on the remaining retries; the loop is always entered with
`fuel = MaxSendRetries` and `retries = 0`, and `retries` strictly increases
on the only looping branch, so the fuel is never exhausted. -/
def sendWriteLoop (f : Nat → WriteResult) : Nat → Nat → Nat → Nat × Option WriteResult
  | 0, i, _retries => (i, none)
  | fuel + 1, i, retries =>
    match f i with
    | WriteResult.enobufs =>
      if retries + 1 = MaxSendRetries then (i + 1, none)
      else sendWriteLoop f fuel (i + 1) (retries + 1)
    | WriteResult.ok => (i + 1, none)
    | WriteResult.otherErr => (i + 1, none)

/-- The write phase of `Pinger.sendICMP`: the retry loop entered with
`retries = 0`. -/
def sendICMPWrites (f : Nat → WriteResult) : Nat × Option WriteResult :=
  sendWriteLoop f MaxSendRetries 0 0

/-- The part of the `Pinger` state touched by `sendICMP` under `p.mux`:
the in-flight table and the sequence counter. -/
structure PingerState where
  queue : Queue
  seq : Nat
deriving DecidableEq

/-- Method `Pinger.sendICMP` from ping.go.  `id` is the value of
`rand.Intn(0xffff)` (the random source is external), `now` the value of
`time.Now()`, `target` the target address and `f` the transport write
oracle.  Under the lock the source reads and increments `p.seq` and stores
`task{id, seq, timestamp, target}` with a plain map assignment; message
marshalling of a well-formed echo request succeeds, after which the write
loop runs.  Returns the updated state, the number of `WriteTo` calls, and
the error returned by `sendICMP` (always `none` once marshalling
succeeded). -/
def sendICMP (st : PingerState) (id : Nat) (now : Int) (target : Nat)
    (f : Nat → WriteResult) : PingerState × Nat × Option WriteResult :=
  let seq := st.seq
  let st2 : PingerState := ⟨mapAssign st.queue id ⟨id, seq, now, target⟩, st.seq + 1⟩
  let w := sendICMPWrites f
  (st2, w.1, w.2)

/-- Struct `packetStat` from ping.go: one recorded probe outcome. -/
structure packetStat where
  successful : Bool
  rtt : Option Int
deriving DecidableEq

/-- Struct `PingStats` from ping.go. -/
structure PingStats where
  startTime : Int
  packets : List packetStat
deriving DecidableEq

/-- Method `PingStats.PacketReceived` from ping.go. -/
def PingStats.PacketReceived (s : PingStats) (rtt : Int) : PingStats :=
  { s with packets := s.packets ++ [⟨true, some rtt⟩] }

/-- Method `PingStats.PacketLost` from ping.go. -/
def PingStats.PacketLost (s : PingStats) : PingStats :=
  { s with packets := s.packets ++ [⟨false, none⟩] }

/-- An exact fraction: `num / den` with `den` kept positive by every
operation below.  Used to embed `float64` values that the source computes
exactly; zero and sign tests only ever inspect the numerator, so the
representation need not be reduced. -/
structure Frac where
  num : Int
  den : Int
deriving DecidableEq

/-- Embed an integer. -/
def Frac.ofInt (n : Int) : Frac := ⟨n, 1⟩

/-- Exact addition. -/
def Frac.add (a b : Frac) : Frac := ⟨a.num * b.den + b.num * a.den, a.den * b.den⟩

/-- Exact subtraction. -/
def Frac.sub (a b : Frac) : Frac := ⟨a.num * b.den - b.num * a.den, a.den * b.den⟩

/-- Exact multiplication. -/
def Frac.mul (a b : Frac) : Frac := ⟨a.num * b.num, a.den * b.den⟩

/-- Exact division by a fraction with nonzero numerator, keeping the
denominator positive. -/
def Frac.divExact (a b : Frac) : Frac :=
  if 0 < b.num then ⟨a.num * b.den, a.den * b.num⟩
  else ⟨-(a.num * b.den), a.den * (-b.num)⟩

/-- Truncation toward zero, the behaviour of the Go `int64(f)` conversion on a
finite value in range. -/
def Frac.trunc (a : Frac) : Int := a.num.tdiv a.den

/-- A `float64` value: a finite value represented exactly, or one of the
IEEE special values.  Signed zero is not distinguished (nothing in this
program observes it). -/
inductive GoFloat where
  | fin (q : Frac)
  | inf
  | ninf
  | nan
deriving DecidableEq

/-- IEEE addition on the embedded values. -/
def GoFloat.add : GoFloat → GoFloat → GoFloat
  | GoFloat.nan, _ => GoFloat.nan
  | _, GoFloat.nan => GoFloat.nan
  | GoFloat.fin a, GoFloat.fin b => GoFloat.fin (a.add b)
  | GoFloat.inf, GoFloat.ninf => GoFloat.nan
  | GoFloat.ninf, GoFloat.inf => GoFloat.nan
  | GoFloat.inf, _ => GoFloat.inf
  | _, GoFloat.inf => GoFloat.inf
  | GoFloat.ninf, _ => GoFloat.ninf
  | _, GoFloat.ninf => GoFloat.ninf

/-- IEEE subtraction on the embedded values. -/
def GoFloat.sub : GoFloat → GoFloat → GoFloat
  | GoFloat.nan, _ => GoFloat.nan
  | _, GoFloat.nan => GoFloat.nan
  | GoFloat.fin a, GoFloat.fin b => GoFloat.fin (a.sub b)
  | GoFloat.inf, GoFloat.inf => GoFloat.nan
  | GoFloat.ninf, GoFloat.ninf => GoFloat.nan
  | GoFloat.inf, _ => GoFloat.inf
  | GoFloat.ninf, _ => GoFloat.ninf
  | _, GoFloat.inf => GoFloat.ninf
  | _, GoFloat.ninf => GoFloat.inf

/-- IEEE multiplication on the embedded values. -/
def GoFloat.mul : GoFloat → GoFloat → GoFloat
  | GoFloat.nan, _ => GoFloat.nan
  | _, GoFloat.nan => GoFloat.nan
  | GoFloat.fin a, GoFloat.fin b => GoFloat.fin (a.mul b)
  | GoFloat.inf, GoFloat.fin b =>
    if b.num = 0 then GoFloat.nan else if 0 < b.num then GoFloat.inf else GoFloat.ninf
  | GoFloat.fin a, GoFloat.inf =>
    if a.num = 0 then GoFloat.nan else if 0 < a.num then GoFloat.inf else GoFloat.ninf
  | GoFloat.ninf, GoFloat.fin b =>
    if b.num = 0 then GoFloat.nan else if 0 < b.num then GoFloat.ninf else GoFloat.inf
  | GoFloat.fin a, GoFloat.ninf =>
    if a.num = 0 then GoFloat.nan else if 0 < a.num then GoFloat.ninf else GoFloat.inf
  | GoFloat.inf, GoFloat.inf => GoFloat.inf
  | GoFloat.inf, GoFloat.ninf => GoFloat.ninf
  | GoFloat.ninf, GoFloat.inf => GoFloat.ninf
  | GoFloat.ninf, GoFloat.ninf => GoFloat.inf

/-- IEEE division on the embedded values: `0/0` and `inf/inf` are NaN, a
nonzero finite value divided by zero is a signed infinity, a finite value
divided by an infinity is zero. -/
def GoFloat.div : GoFloat → GoFloat → GoFloat
  | GoFloat.nan, _ => GoFloat.nan
  | _, GoFloat.nan => GoFloat.nan
  | GoFloat.fin a, GoFloat.fin b =>
    if b.num = 0 then
      if a.num = 0 then GoFloat.nan
      else if 0 < a.num then GoFloat.inf else GoFloat.ninf
    else GoFloat.fin (a.divExact b)
  | GoFloat.inf, GoFloat.fin b =>
    if 0 ≤ b.num then GoFloat.inf else GoFloat.ninf
  | GoFloat.ninf, GoFloat.fin b =>
    if 0 ≤ b.num then GoFloat.ninf else GoFloat.inf
  | GoFloat.fin _, GoFloat.inf => GoFloat.fin (Frac.ofInt 0)
  | GoFloat.fin _, GoFloat.ninf => GoFloat.fin (Frac.ofInt 0)
  | GoFloat.inf, GoFloat.inf => GoFloat.nan
  | GoFloat.inf, GoFloat.ninf => GoFloat.nan
  | GoFloat.ninf, GoFloat.inf => GoFloat.nan
  | GoFloat.ninf, GoFloat.ninf => GoFloat.nan

/-- Function `math.Sqrt`: NaN for NaN and negative arguments, infinity for infinity;
on nonnegative finite values the numeric result is supplied by the oracle
`rsqrt` (no claim depends on it). -/
def GoFloat.sqrtOracle (rsqrt : Frac → Frac) : GoFloat → GoFloat
  | GoFloat.nan => GoFloat.nan
  | GoFloat.ninf => GoFloat.nan
  | GoFloat.inf => GoFloat.inf
  | GoFloat.fin q => if q.num < 0 then GoFloat.nan else GoFloat.fin (rsqrt q)

/-- The Go `int64(f)` conversion (as used by `time.Duration(...)` applied to a
`float64`): truncation toward zero for finite in-range values; for NaN,
infinities and out-of-range values the Go specification makes the result
implementation-dependent, embedded as `none`. -/
def GoFloat.toInt64 : GoFloat → Option Int
  | GoFloat.fin q =>
    let n := q.trunc
    if -(2 ^ 63) ≤ n ∧ n < 2 ^ 63 then some n else none
  | _ => none

/-- Function `ms` from ping.go: `float64(d.Nanoseconds()) / 1000000`.  All duration
values reaching it are far below 2^53 in magnitude, so the `float64`
computation is exact and the exact-fraction embedding coincides with it. -/
def ms (d : Int) : GoFloat :=
  GoFloat.div (GoFloat.fin (Frac.ofInt d)) (GoFloat.fin (Frac.ofInt 1000000))

/-- Struct `PingSummary` from ping.go.  Durations are nanosecond counts; `SdevRTT`
is the result of the `int64` conversion of a `float64`, hence optional (see
`GoFloat.toInt64`). -/
structure PingSummary where
  NumPackets : Nat
  NumReceived : Nat
  TotalDuration : Int
  MinRTT : Int
  AvgRTT : Int
  MaxRTT : Int
  SdevRTT : Option Int
deriving DecidableEq

/-- Function `processDurations` from ping.go applied to `math.Min` / `math.Max`: both
nanosecond counts are converted to `float64`, combined, and converted back.
For the values this program produces (below 2^53) both conversions are exact,
so the combinator reduces to the integer `fn`. -/
def processDurations (fn : Int → Int → Int) (a b : Int) : Int := fn a b

/-- The first loop of `PingStats.Calculate`: counts packets and received
packets, accumulates `rttsum` over records with a recorded rtt, and folds
`MinRTT`/`MaxRTT` — initialising them only when the record at index 0
carries an rtt (`if i == 0`), otherwise folding into the current field
values. -/
def calcLoop1 (i : Nat) (acc : PingSummary) (rttsum : Int) :
    List packetStat → PingSummary × Int
  | [] => (acc, rttsum)
  | p :: rest =>
    let acc1 := { acc with NumPackets := acc.NumPackets + 1 }
    let acc2 :=
      if p.successful then { acc1 with NumReceived := acc1.NumReceived + 1 } else acc1
    match p.rtt with
    | none => calcLoop1 (i + 1) acc2 rttsum rest
    | some r =>
      let rttsum2 := rttsum + r
      let acc3 :=
        if i = 0 then { acc2 with MinRTT := r, MaxRTT := r }
        else { acc2 with MinRTT := processDurations min acc2.MinRTT r,
                         MaxRTT := processDurations max acc2.MaxRTT r }
      calcLoop1 (i + 1) acc3 rttsum2 rest

/-- The second loop of `PingStats.Calculate`: sums
`math.Pow(ms(rtt) - ms(avg), 2)` over the records with a recorded rtt
(`math.Pow(x, 2)` is the IEEE square). -/
def calcLoop2 (avg : Int) : List packetStat → GoFloat → GoFloat
  | [], s => s
  | p :: rest, s =>
    match p.rtt with
    | none => calcLoop2 avg rest s
    | some r =>
      let d := GoFloat.sub (ms r) (ms avg)
      calcLoop2 avg rest (GoFloat.add s (d.mul d))

/-- The standard-deviation expression of `PingStats.Calculate`:
`math.Sqrt(rttdiffsum / float64(len(s.packets) - 1)) * 1000000`. -/
def calcSdevFloat (rsqrt : Frac → Frac) (avg : Int) (n : Nat)
    (l : List packetStat) : GoFloat :=
  GoFloat.mul
    (GoFloat.sqrtOracle rsqrt
      (GoFloat.div (calcLoop2 avg l (GoFloat.fin (Frac.ofInt 0)))
        (GoFloat.fin (Frac.ofInt ((n : Int) - 1)))))
    (GoFloat.fin (Frac.ofInt 1000000))

/-- Method `PingStats.Calculate` from ping.go.  `now` is the value read by
`time.Since(s.startTime)`; `rsqrt` is the `math.Sqrt` oracle.  With no
recorded packets it returns the zero summary at once; otherwise it runs the
two loops, divides `rttsum` by the total packet count with Go `int64`
(truncating) division, and converts the standard-deviation `float64` to an
`int64`. -/
def PingStats.Calculate (s : PingStats) (now : Int) (rsqrt : Frac → Frac) :
    PingSummary :=
  let ps0 : PingSummary := ⟨0, 0, 0, 0, 0, 0, some 0⟩
  if s.packets.length = 0 then ps0
  else
    let ps1 := { ps0 with TotalDuration := now - s.startTime }
    let res := calcLoop1 0 ps1 0 s.packets
    let ps2 := res.1
    let rttsum := res.2
    let ps3 := { ps2 with AvgRTT := rttsum.tdiv (s.packets.length : Int) }
    { ps3 with
      SdevRTT := GoFloat.toInt64 (calcSdevFloat rsqrt ps3.AvgRTT s.packets.length s.packets) }

/-- The ICMP message types `processRecv` distinguishes. -/
inductive IcmpType where
  | echoReply
  | timeExceeded
  | otherType
deriving DecidableEq

/-- The message bodies `processRecv` distinguishes: an `*icmp.Echo` body with
its ID and Seq header fields, or anything else. -/
inductive IcmpBody where
  | echo (id : Nat) (seq : Nat)
  | otherBody
deriving DecidableEq

/-- A parsed ICMP message as seen by `processRecv`. -/
structure IcmpMsg where
  type : IcmpType
  body : IcmpBody
deriving DecidableEq

/-- Struct `packet` from ping.go: raw bytes plus the sender address. -/
structure packet where
  bytes : List Nat
  addr : Nat
deriving DecidableEq

/-- Struct `response` from ping.go. -/
structure response where
  addr : Nat
  rtt : Int
  seq : Nat
  bytelen : Nat
  ttl : Nat
deriving DecidableEq

/-- The buffer `receiveLoop` hands to `processLoop`: the source allocates
`buf := make([]byte, 64, 512)`, lets `conn.ReadFrom(buf)` fill a prefix of it
(ignoring the returned byte count) and forwards the whole 64-byte `buf`. -/
def recvBuffer (data : List Nat) : List Nat :=
  data.take 64 ++ List.replicate (64 - (data.take 64).length) 0

/-- The packet `receiveLoop` sends over `p.recvCh` after reading `data` from
the transport. -/
def receivePacket (data : List Nat) (addr : Nat) : packet :=
  ⟨recvBuffer data, addr⟩

/-- Method `Pinger.processRecv` from ping.go.  `parse` is the byte-level
`icmp.ParseMessage` oracle of the external library (`none` = parse error),
`now` the arrival timestamp.  Returns the error value `processRecv` returns
(logged by `processLoop`, never fatal to the run), the updated queue and
statistics, and the `response` delivered to the callback when one is —
unless a queue operation hits the runtime fatal double-unlock, which kills
the process (`GoResult.fatal`; the deferred `ps.PacketLost()` of the
time-exceeded branch does not run in that case). -/
def processRecv (parse : List Nat → Option IcmpMsg) (now : Int)
    (q : Queue) (ps : PingStats) (recv : packet) :
    GoResult (Option String × Queue × PingStats × Option response) :=
  match parse recv.bytes with
  | none => GoResult.ok (some "parse error", q, ps, none)
  | some m =>
    match m.type with
    | IcmpType.timeExceeded =>
      -- defer ps.PacketLost(): runs on every ordinary exit of this branch
      let newBuf := recv.bytes.drop (recv.bytes.length - 16)
      match parse newBuf with
      | none =>
        GoResult.ok (some "From hop: Time to live exceeded", q, ps.PacketLost, none)
      | some origMsg =>
        match origMsg.body with
        | IcmpBody.otherBody =>
          GoResult.ok (some "From hop: Time to live exceeded", q, ps.PacketLost, none)
        | IcmpBody.echo pid _pseq =>
          match unqueuePkt q pid with
          | GoResult.fatal msg => GoResult.fatal msg
          | GoResult.ok (_, some e, q2) =>
            GoResult.ok (some e, q2, ps.PacketLost, none)
          | GoResult.ok (_, none, q2) =>
            GoResult.ok (some "From hop: Time To Live exceeded", q2, ps.PacketLost, none)
    | IcmpType.otherType => GoResult.ok (some "invalid reply type", q, ps, none)
    | IcmpType.echoReply =>
      match m.body with
      | IcmpBody.otherBody => GoResult.ok (some "invalid reply body type", q, ps, none)
      | IcmpBody.echo pid pseq =>
        match unqueuePkt q pid with
        | GoResult.fatal msg => GoResult.fatal msg
        | GoResult.ok (_, some e, q2) => GoResult.ok (some e, q2, ps, none)
        | GoResult.ok (t, none, q2) =>
          -- rtt keeps its zero value when the sequence numbers disagree
          let rtt : Int := if pseq = t.seq then now - t.sendTime else 0
          if recv.addr ≠ t.addr then
            GoResult.ok (some "Did not expect packet from this host", q2, ps, none)
          else
            let resp : response := ⟨recv.addr, rtt, t.seq, recv.bytes.length, 0⟩
            -- p.callback = handler: logs and records ps.PacketReceived(rtt)
            GoResult.ok (none, q2, ps.PacketReceived rtt, some resp)

/-- One `processLoop` iteration consuming a packet from `p.recvCh`: the error
returned by `processRecv` is only logged and the loop goes on; only a runtime
fatal error terminates anything. -/
def processStep (parse : List Nat → Option IcmpMsg) (now : Int)
    (q : Queue) (ps : PingStats) (recv : packet) : GoResult (Queue × PingStats) :=
  match processRecv parse now q ps recv with
  | GoResult.fatal m => GoResult.fatal m
  | GoResult.ok (_errMsg, q2, ps2, _resp) => GoResult.ok (q2, ps2)

/-- The sweep in the default branch of `processLoop`: for every queue entry with
`time.Now().After(t.sendTime.Add(p.maxRTT))` the source records one
`ps.PacketLost()` and deletes the entry; other entries are untouched.  `now`
stands for the (monotone) clock readings of the sweep. -/
def sweepLoop (now maxRTT : Int) : Queue → PingStats → Queue × PingStats
  | [], ps => ([], ps)
  | e :: rest, ps =>
    if e.2.sendTime + maxRTT < now then
      sweepLoop now maxRTT rest ps.PacketLost
    else
      let r := sweepLoop now maxRTT rest ps
      (e :: r.1, r.2)

/-! ## Lemmas about the ledger operations -/

theorem mapLookup_cons (e : Nat × task) (rest : Queue) (j : Nat) :
    mapLookup (e :: rest) j = if e.1 = j then some e.2 else mapLookup rest j := by
  by_cases h : e.1 = j <;> simp [mapLookup, List.find?_cons, h]

theorem mapDelete_cons (e : Nat × task) (rest : Queue) (id : Nat) :
    mapDelete (e :: rest) id
      = if e.1 = id then mapDelete rest id else e :: mapDelete rest id := by
  by_cases h : e.1 = id <;> simp [mapDelete, List.filter_cons, h]

theorem mapLookup_append (q1 q2 : Queue) (j : Nat) :
    mapLookup (q1 ++ q2) j
      = match mapLookup q1 j with
        | some t => some t
        | none => mapLookup q2 j := by
  induction q1 with
  | nil => rfl
  | cons e rest ih =>
    rw [List.cons_append, mapLookup_cons, mapLookup_cons]
    by_cases h : e.1 = j
    · rw [if_pos h, if_pos h]
    · rw [if_neg h, if_neg h]; exact ih

theorem mapLookup_mapDelete_self (q : Queue) (id : Nat) :
    mapLookup (mapDelete q id) id = none := by
  induction q with
  | nil => rfl
  | cons e rest ih =>
    rw [mapDelete_cons]
    by_cases h : e.1 = id
    · rw [if_pos h]; exact ih
    · rw [if_neg h, mapLookup_cons, if_neg h]; exact ih

theorem mapLookup_mapDelete_ne (q : Queue) (id j : Nat) (h : j ≠ id) :
    mapLookup (mapDelete q id) j = mapLookup q j := by
  induction q with
  | nil => rfl
  | cons e rest ih =>
    rw [mapDelete_cons, mapLookup_cons]
    by_cases he : e.1 = id
    · rw [if_pos he, if_neg (by omega : ¬ e.1 = j)]; exact ih
    · rw [if_neg he, mapLookup_cons]
      by_cases hj : e.1 = j
      · rw [if_pos hj, if_pos hj]
      · rw [if_neg hj, if_neg hj]; exact ih

theorem mapLookup_singleton_self (id : Nat) (t : task) :
    mapLookup [(id, t)] id = some t := by
  rw [mapLookup_cons, if_pos rfl]

theorem mapLookup_singleton_ne (id j : Nat) (t : task) (h : j ≠ id) :
    mapLookup [(id, t)] j = none := by
  rw [mapLookup_cons, if_neg (by omega : ¬ id = j)]
  rfl

theorem mapLookup_mapAssign_self (q : Queue) (id : Nat) (t : task) :
    mapLookup (mapAssign q id t) id = some t := by
  rw [mapAssign, mapLookup_append, mapLookup_mapDelete_self]
  exact mapLookup_singleton_self id t

theorem mapLookup_mapAssign_ne (q : Queue) (id j : Nat) (t : task) (h : j ≠ id) :
    mapLookup (mapAssign q id t) j = mapLookup q j := by
  rw [mapAssign, mapLookup_append, mapLookup_mapDelete_ne q id j h]
  cases hq : mapLookup q j with
  | some u => rfl
  | none => exact mapLookup_singleton_ne id j t h

theorem countP_key_mapDelete (q : Queue) (id : Nat) :
    (mapDelete q id).countP (fun e => e.1 == id) = 0 := by
  induction q with
  | nil => rfl
  | cons e rest ih =>
    rw [mapDelete_cons]
    by_cases h : e.1 = id
    · rw [if_pos h]; exact ih
    · rw [if_neg h, List.countP_cons]
      simp [h, ih]

theorem countP_key_mapAssign (q : Queue) (id : Nat) (t : task) :
    (mapAssign q id t).countP (fun e => e.1 == id) = 1 := by
  rw [mapAssign, List.countP_append, countP_key_mapDelete]
  simp

theorem unqueuePkt_found (q : Queue) (id : Nat) (t : task)
    (h : mapLookup q id = some t) :
    unqueuePkt q id = GoResult.ok (t, none, mapDelete q id) := by
  unfold unqueuePkt
  rw [h]
  rfl

theorem unqueuePkt_missing (q : Queue) (id : Nat)
    (h : mapLookup q id = none) :
    unqueuePkt q id = GoResult.fatal "sync: unlock of unlocked mutex" := by
  unfold unqueuePkt
  rw [h]
  rfl

/-! ## Claim C1 -/

/-- Claim C1 (code bug).  First half of the claim: on an empty Ledger,
`sendICMP`-style insertion of a request with id 7 followed by `unqueuePkt 7`
returns the original request (`found = true`) and leaves the Ledger empty.
Second half: a second `unqueuePkt 7` does NOT report `found = false` as a
mere anomaly — the source unlocks `p.mux` explicitly on the not-found path
and then the deferred unlock runs on an already-unlocked mutex, a Go
runtime fatal error that kills the whole process, contradicting the claim
that an unknown id is never fatal. -/
theorem c1_remove_twice_crashes_process :
    unqueuePkt (mapAssign [] 7 ⟨7, 0, 100, 9⟩) 7
      = GoResult.ok (⟨7, 0, 100, 9⟩, none, [])
    ∧ unqueuePkt ([] : Queue) 7 = GoResult.fatal "sync: unlock of unlocked mutex" :=
  ⟨rfl, rfl⟩

/-! ## Claim C2 -/

theorem sendWriteLoop_attempts_le (f : Nat → WriteResult) :
    ∀ (fuel i retries : Nat), (sendWriteLoop f fuel i retries).1 ≤ i + fuel := by
  intro fuel
  induction fuel with
  | zero => intro i r; simp [sendWriteLoop]
  | succ n ih =>
    intro i r
    cases hf : f i with
    | enobufs =>
      by_cases hr : r + 1 = MaxSendRetries
      · simp only [sendWriteLoop, hf, if_pos hr]
        omega
      · have := ih (i + 1) (r + 1)
        simp only [sendWriteLoop, hf, if_neg hr]
        omega
    | ok =>
      simp only [sendWriteLoop, hf]
      omega
    | otherErr =>
      simp only [sendWriteLoop, hf]
      omega

theorem sendWriteLoop_err_none (f : Nat → WriteResult) :
    ∀ (fuel i retries : Nat), (sendWriteLoop f fuel i retries).2 = none := by
  intro fuel
  induction fuel with
  | zero => intro i r; simp [sendWriteLoop]
  | succ n ih =>
    intro i r
    cases hf : f i with
    | enobufs =>
      by_cases hr : r + 1 = MaxSendRetries
      · simp [sendWriteLoop, hf, hr]
      · simpa [sendWriteLoop, hf, if_neg hr] using ih (i + 1) (r + 1)
    | ok => simp [sendWriteLoop, hf]
    | otherErr => simp [sendWriteLoop, hf]

theorem sendWriteLoop_enobufs_before (f : Nat → WriteResult) :
    ∀ (fuel i retries j : Nat), i ≤ j → j + 1 < (sendWriteLoop f fuel i retries).1 →
      f j = WriteResult.enobufs := by
  intro fuel
  induction fuel with
  | zero =>
    intro i r j hij hj
    simp [sendWriteLoop] at hj
    omega
  | succ n ih =>
    intro i r j hij hj
    cases hf : f i with
    | enobufs =>
      by_cases hr : r + 1 = MaxSendRetries
      · simp [sendWriteLoop, hf, hr] at hj
        omega
      · rw [sendWriteLoop, hf, if_neg hr] at hj
        by_cases hji : j = i
        · subst hji; exact hf
        · exact ih (i + 1) (r + 1) j (by omega) hj
    | ok => simp [sendWriteLoop, hf] at hj; omega
    | otherErr => simp [sendWriteLoop, hf] at hj; omega

/-- Claim C2, counterexample.  With a transport whose write fails with an
error that is not an ENOBUFS `OpError`, `sendICMP` performs exactly one
write attempt and returns `nil`: the transport error is NOT propagated as a
fatal run error, contradicting the claim. -/
theorem c2_other_write_error_returns_nil :
    (sendICMP ⟨[], 0⟩ 5 0 9 (fun _ => WriteResult.otherErr)).2 = (1, none) := by
  decide

/-- Claim C2 as amended: for every transport behaviour, the write is
attempted at most `MaxSendRetries = 5` times, every attempt before the last
is one that failed with the transient resource-exhaustion condition
(ENOBUFS) — so only that condition is retried — and `sendICMP` never
returns a transport write error: after the bounded retries, or on any other
write error, the probe is simply given up and the send reports success. -/
theorem c2_write_retries_bounded_and_errors_dropped
    (st : PingerState) (id : Nat) (now : Int) (target : Nat) (f : Nat → WriteResult) :
    (sendICMP st id now target f).2.1 ≤ MaxSendRetries
    ∧ (∀ j, j + 1 < (sendICMP st id now target f).2.1 → f j = WriteResult.enobufs)
    ∧ (sendICMP st id now target f).2.2 = none := by
  refine ⟨?_, fun j hj => ?_, ?_⟩
  · simpa using sendWriteLoop_attempts_le f MaxSendRetries 0 0
  · exact sendWriteLoop_enobufs_before f MaxSendRetries 0 0 j (Nat.zero_le j) hj
  · exact sendWriteLoop_err_none f MaxSendRetries 0 0

/-- Witness for C2: a transport that always reports ENOBUFS. -/
theorem c2_write_retries_witness :
    (sendICMP ⟨[], 0⟩ 5 0 9 (fun _ => WriteResult.enobufs)).2.1 ≤ MaxSendRetries
    ∧ (sendICMP ⟨[], 0⟩ 5 0 9 (fun _ => WriteResult.enobufs)).2.2 = none :=
  ⟨(c2_write_retries_bounded_and_errors_dropped ⟨[], 0⟩ 5 0 9 (fun _ => WriteResult.enobufs)).1,
   (c2_write_retries_bounded_and_errors_dropped ⟨[], 0⟩ 5 0 9 (fun _ => WriteResult.enobufs)).2.2⟩

/-! ## Claim C3 -/

/-- Claim C3, counterexample.  With a request already stored under
correlation id 5, a send whose random id is again 5 silently overwrites the
existing entry: afterwards id 5 maps to the new request, and the originally
stored request (sequence number 0, send time 0) is gone, contradicting
"never silently overwrites". -/
theorem c3_duplicate_id_silently_overwritten :
    mapLookup ((sendICMP ⟨[(5, ⟨5, 0, 0, 9⟩)], 1⟩ 5 50 9 (fun _ => WriteResult.ok)).1.queue) 5
      = some ⟨5, 1, 50, 9⟩
    ∧ some (⟨5, 1, 50, 9⟩ : task) ≠ some (⟨5, 0, 0, 9⟩ : task)
    ∧ mapLookup [(5, ⟨5, 0, 0, 9⟩)] 5 = some ⟨5, 0, 0, 9⟩ := by
  decide

/-- Claim C3 as amended: `sendICMP` stores the request under the externally
drawn random id with plain Go map-assignment semantics — no freshness check
is made and an entry already present under that id is silently replaced.
After the insertion the id maps to the newly stored request, every other id
is untouched, the id occurs exactly once in the table, and the sequence
counter has been incremented. -/
theorem c3_insert_map_assignment_semantics
    (st : PingerState) (id : Nat) (now : Int) (target : Nat) (f : Nat → WriteResult) :
    mapLookup (sendICMP st id now target f).1.queue id = some ⟨id, st.seq, now, target⟩
    ∧ (∀ j, j ≠ id → mapLookup (sendICMP st id now target f).1.queue j = mapLookup st.queue j)
    ∧ (sendICMP st id now target f).1.queue.countP (fun e => e.1 == id) = 1
    ∧ (sendICMP st id now target f).1.seq = st.seq + 1 := by
  refine ⟨?_, fun j hj => ?_, ?_, rfl⟩
  · exact mapLookup_mapAssign_self st.queue id ⟨id, st.seq, now, target⟩
  · exact mapLookup_mapAssign_ne st.queue id j ⟨id, st.seq, now, target⟩ hj
  · exact countP_key_mapAssign st.queue id ⟨id, st.seq, now, target⟩

/-- Witness for the amended statement of C3 at a concrete send. -/
theorem c3_insert_witness :
    mapLookup (sendICMP ⟨[], 0⟩ 7 3 9 (fun _ => WriteResult.ok)).1.queue 7
      = some ⟨7, 0, 3, 9⟩ :=
  (c3_insert_map_assignment_semantics ⟨[], 0⟩ 7 3 9 (fun _ => WriteResult.ok)).1

/-! ## Lemmas about PingStats.Calculate -/

theorem Calculate_AvgRTT (start now : Int) (rsqrt : Frac → Frac)
    (pkts : List packetStat) (h : pkts.length ≠ 0) :
    (PingStats.Calculate ⟨start, pkts⟩ now rsqrt).AvgRTT
      = (calcLoop1 0 ⟨0, 0, now - start, 0, 0, 0, some 0⟩ 0 pkts).2.tdiv
          (pkts.length : Int) := by
  dsimp only [PingStats.Calculate]
  rw [if_neg h]

theorem Calculate_MinRTT (start now : Int) (rsqrt : Frac → Frac)
    (pkts : List packetStat) (h : pkts.length ≠ 0) :
    (PingStats.Calculate ⟨start, pkts⟩ now rsqrt).MinRTT
      = ((calcLoop1 0 ⟨0, 0, now - start, 0, 0, 0, some 0⟩ 0 pkts).1).MinRTT := by
  dsimp only [PingStats.Calculate]
  rw [if_neg h]

theorem Calculate_MaxRTT (start now : Int) (rsqrt : Frac → Frac)
    (pkts : List packetStat) (h : pkts.length ≠ 0) :
    (PingStats.Calculate ⟨start, pkts⟩ now rsqrt).MaxRTT
      = ((calcLoop1 0 ⟨0, 0, now - start, 0, 0, 0, some 0⟩ 0 pkts).1).MaxRTT := by
  dsimp only [PingStats.Calculate]
  rw [if_neg h]

theorem Calculate_SdevRTT (start now : Int) (rsqrt : Frac → Frac)
    (pkts : List packetStat) (h : pkts.length ≠ 0) :
    (PingStats.Calculate ⟨start, pkts⟩ now rsqrt).SdevRTT
      = GoFloat.toInt64 (calcSdevFloat rsqrt
          ((calcLoop1 0 ⟨0, 0, now - start, 0, 0, 0, some 0⟩ 0 pkts).2.tdiv
            (pkts.length : Int))
          pkts.length pkts) := by
  dsimp only [PingStats.Calculate]
  rw [if_neg h]

theorem calcLoop1_snd (l : List packetStat) :
    ∀ (i : Nat) (acc : PingSummary) (s : Int),
      (calcLoop1 i acc s l).2 = s + (l.filterMap (fun p => p.rtt)).sum := by
  induction l with
  | nil => intro i acc s; simp [calcLoop1]
  | cons p rest ih =>
    intro i acc s
    cases hr : p.rtt with
    | none =>
      simp only [calcLoop1, hr, List.filterMap_cons]
      rw [ih]
    | some r =>
      simp only [calcLoop1, hr, List.filterMap_cons]
      rw [ih, List.sum_cons]
      omega

theorem calcLoop1_MinRTT (l : List packetStat) :
    ∀ (i : Nat) (acc : PingSummary) (s : Int), i ≠ 0 →
      ((calcLoop1 i acc s l).1).MinRTT
        = List.foldl min acc.MinRTT (l.filterMap (fun p => p.rtt)) := by
  induction l with
  | nil => intro i acc s hi; simp [calcLoop1]
  | cons p rest ih =>
    intro i acc s hi
    cases hr : p.rtt with
    | none =>
      simp only [calcLoop1, hr, List.filterMap_cons]
      rw [ih _ _ _ (by omega : i + 1 ≠ 0)]
      by_cases hs : p.successful <;> simp [hs]
    | some r =>
      simp only [calcLoop1, hr, List.filterMap_cons]
      rw [if_neg hi]
      rw [ih _ _ _ (by omega : i + 1 ≠ 0)]
      by_cases hs : p.successful <;>
        simp [hs, processDurations, List.foldl_cons]

theorem calcLoop1_MaxRTT (l : List packetStat) :
    ∀ (i : Nat) (acc : PingSummary) (s : Int), i ≠ 0 →
      ((calcLoop1 i acc s l).1).MaxRTT
        = List.foldl max acc.MaxRTT (l.filterMap (fun p => p.rtt)) := by
  induction l with
  | nil => intro i acc s hi; simp [calcLoop1]
  | cons p rest ih =>
    intro i acc s hi
    cases hr : p.rtt with
    | none =>
      simp only [calcLoop1, hr, List.filterMap_cons]
      rw [ih _ _ _ (by omega : i + 1 ≠ 0)]
      by_cases hs : p.successful <;> simp [hs]
    | some r =>
      simp only [calcLoop1, hr, List.filterMap_cons]
      rw [if_neg hi]
      rw [ih _ _ _ (by omega : i + 1 ≠ 0)]
      by_cases hs : p.successful <;>
        simp [hs, processDurations, List.foldl_cons]

theorem calcLoop1_zero_step (acc : PingSummary) (s : Int) (p0 : packetStat)
    (rest : List packetStat) (r0 : Int)
    (h0 : p0.rtt = some r0) (hs : p0.successful = true) :
    calcLoop1 0 acc s (p0 :: rest)
      = calcLoop1 1 { acc with NumPackets := acc.NumPackets + 1,
                               NumReceived := acc.NumReceived + 1,
                               MinRTT := r0, MaxRTT := r0 } (s + r0) rest := by
  simp [calcLoop1, h0, hs]

theorem filterMap_filter_succ (l : List packetStat)
    (h : ∀ p ∈ l, p.successful = p.rtt.isSome) :
    (l.filter (fun p => p.successful)).filterMap (fun p => p.rtt)
      = l.filterMap (fun p => p.rtt) := by
  induction l with
  | nil => rfl
  | cons p rest ih =>
    have hp := h p (List.mem_cons_self p rest)
    have hrest := ih (fun p2 hp2 => h p2 (List.mem_cons_of_mem p hp2))
    cases hrtt : p.rtt with
    | none =>
      have hpf : p.successful = false := by rw [hp, hrtt]; rfl
      simp [List.filter_cons, List.filterMap_cons, hpf, hrtt, hrest]
    | some r =>
      have hpt : p.successful = true := by rw [hp, hrtt]; rfl
      simp [List.filter_cons, List.filterMap_cons, hpt, hrtt, hrest]

theorem foldl_min_le_init (a : Int) (l : List Int) : List.foldl min a l ≤ a := by
  induction l generalizing a with
  | nil => simp
  | cons x xs ih =>
    rw [List.foldl_cons]
    exact le_trans (ih (min a x)) (min_le_left a x)

theorem foldl_min_le_mem (a : Int) (l : List Int) :
    ∀ x ∈ l, List.foldl min a l ≤ x := by
  induction l generalizing a with
  | nil => intro x hx; exact absurd hx (List.not_mem_nil x)
  | cons y ys ih =>
    intro x hx
    rw [List.foldl_cons]
    rcases List.mem_cons.mp hx with h | h
    · subst h
      exact le_trans (foldl_min_le_init (min a x) ys) (min_le_right a x)
    · exact ih (min a y) x h

theorem foldl_min_mem (a : Int) (l : List Int) :
    List.foldl min a l = a ∨ List.foldl min a l ∈ l := by
  induction l generalizing a with
  | nil => left; rfl
  | cons y ys ih =>
    rw [List.foldl_cons]
    rcases ih (min a y) with h | h
    · rcases min_choice a y with hm | hm
      · left; rw [h, hm]
      · right; rw [h, hm]; exact List.mem_cons_self y ys
    · right; exact List.mem_cons_of_mem y h

theorem foldl_max_ge_init (a : Int) (l : List Int) : a ≤ List.foldl max a l := by
  induction l generalizing a with
  | nil => simp
  | cons x xs ih =>
    rw [List.foldl_cons]
    exact le_trans (le_max_left a x) (ih (max a x))

theorem foldl_max_ge_mem (a : Int) (l : List Int) :
    ∀ x ∈ l, x ≤ List.foldl max a l := by
  induction l generalizing a with
  | nil => intro x hx; exact absurd hx (List.not_mem_nil x)
  | cons y ys ih =>
    intro x hx
    rw [List.foldl_cons]
    rcases List.mem_cons.mp hx with h | h
    · subst h
      exact le_trans (le_max_right a x) (foldl_max_ge_init (max a x) ys)
    · exact ih (max a y) x h

theorem foldl_max_mem (a : Int) (l : List Int) :
    List.foldl max a l = a ∨ List.foldl max a l ∈ l := by
  induction l generalizing a with
  | nil => left; rfl
  | cons y ys ih =>
    rw [List.foldl_cons]
    rcases ih (max a y) with h | h
    · rcases max_choice a y with hm | hm
      · left; rw [h, hm]
      · right; rw [h, hm]; exact List.mem_cons_self y ys
    · right; exact List.mem_cons_of_mem y h

/-! ## Claim C4 -/

/-- Claim C4 (code bug).  With exactly one recorded probe the sum of squared
deviations and the Bessel denominator `len - 1` are both exactly zero, so
the source computes `math.Sqrt(0.0 / 0.0) * 1000000` — NaN, for every
possible square-root oracle — and then converts that NaN to `int64`, whose
value the Go specification leaves implementation-dependent (on amd64 it is
the minimum `int64`).  The standard deviation is therefore a NaN-derived
value, not the zero the specification requires. -/
theorem c4_single_probe_sdev_nan_derived (rsqrt : Frac → Frac) (start now : Int) :
    calcSdevFloat rsqrt 10000000 1 [⟨true, some 10000000⟩] = GoFloat.nan
    ∧ (PingStats.Calculate ⟨start, [⟨true, some 10000000⟩]⟩ now rsqrt).SdevRTT = none := by
  have hnan : calcSdevFloat rsqrt 10000000 1 [⟨true, some 10000000⟩] = GoFloat.nan := rfl
  refine ⟨hnan, ?_⟩
  rw [Calculate_SdevRTT start now rsqrt [⟨true, some 10000000⟩] (by decide)]
  have h1 : (calcLoop1 0 ⟨0, 0, now - start, 0, 0, 0, some 0⟩ 0
      [(⟨true, some 10000000⟩ : packetStat)]).2 = 10000000 := by
    rw [calcLoop1_snd]
    decide
  rw [h1,
    show ([(⟨true, some 10000000⟩ : packetStat)]).length = 1 from rfl,
    show (10000000 : Int).tdiv ((1 : Nat) : Int) = 10000000 by decide,
    hnan]
  rfl

/-! ## Claim C5 -/

/-- Claim C5: for every non-empty record sequence, the average RTT computed
by `Calculate` is the sum of the RTTs of the received records divided
(with Go `int64` truncating division) by the TOTAL number of records —
successes plus losses — not by the number of received records. -/
theorem c5_avg_rtt_sum_over_total_sent (start now : Int) (rsqrt : Frac → Frac)
    (pkts : List packetStat)
    (hwf : ∀ p ∈ pkts, p.successful = p.rtt.isSome) (hne : pkts ≠ []) :
    (PingStats.Calculate ⟨start, pkts⟩ now rsqrt).AvgRTT
      = Int.tdiv ((pkts.filter (fun p => p.successful)).filterMap (fun p => p.rtt)).sum
          (pkts.length : Int) := by
  have hlen : pkts.length ≠ 0 := by
    intro hl
    exact hne (List.length_eq_zero.mp hl)
  rw [Calculate_AvgRTT start now rsqrt pkts hlen, calcLoop1_snd,
      filterMap_filter_succ pkts hwf]
  simp

/-- Witness for C5 at the spec example: two successes (10 ms and 20 ms) plus
one loss give average (10 + 20) / 3 = 10 ms, not 15 ms. -/
theorem c5_avg_rtt_witness :
    (PingStats.Calculate
        ⟨0, [⟨true, some 10000000⟩, ⟨true, some 20000000⟩, ⟨false, none⟩]⟩ 0
        (fun q => q)).AvgRTT = 10000000 := by
  rw [c5_avg_rtt_sum_over_total_sent 0 0 (fun q => q)
    [⟨true, some 10000000⟩, ⟨true, some 20000000⟩, ⟨false, none⟩]
    (by decide) (by decide)]
  decide

/-! ## Claim C6 -/

/-- Claim C6, counterexample.  When the FIRST recorded probe is a loss,
`MinRTT` is never initialised (the `i == 0` initialisation is skipped by the
`continue` on a nil rtt) and later records fold `min` into the zero value:
for records [loss, received 10ms] the received records are exactly
[10000000 ns], so the claimed minimum is 10 ms, but `Calculate` reports 0. -/
theorem c6_min_rtt_zero_when_first_record_lost :
    (PingStats.Calculate ⟨0, [⟨false, none⟩, ⟨true, some 10000000⟩]⟩ 0
        (fun q => q)).MinRTT = 0
    ∧ (([⟨false, none⟩, ⟨true, some 10000000⟩] : List packetStat).filter
        (fun p => p.successful)).filterMap (fun p => p.rtt) = [10000000] := by
  decide

/-- Claim C6 as amended: when the FIRST recorded probe carries an rtt (in
particular whenever the first record is a received one), `MinRTT` and
`MaxRTT` computed by `Calculate` are exactly the minimum and maximum over
the RTTs of the received records; losses after the first record do not
contribute. -/
theorem c6_minmax_over_received_when_first_received (start now : Int)
    (rsqrt : Frac → Frac) (p0 : packetStat) (rest : List packetStat) (r0 : Int)
    (h0 : p0.rtt = some r0)
    (hwf : ∀ p ∈ p0 :: rest, p.successful = p.rtt.isSome) :
    ((PingStats.Calculate ⟨start, p0 :: rest⟩ now rsqrt).MinRTT
        ∈ ((p0 :: rest).filter (fun p => p.successful)).filterMap (fun p => p.rtt)
      ∧ ∀ x ∈ ((p0 :: rest).filter (fun p => p.successful)).filterMap (fun p => p.rtt),
          (PingStats.Calculate ⟨start, p0 :: rest⟩ now rsqrt).MinRTT ≤ x)
    ∧ ((PingStats.Calculate ⟨start, p0 :: rest⟩ now rsqrt).MaxRTT
        ∈ ((p0 :: rest).filter (fun p => p.successful)).filterMap (fun p => p.rtt)
      ∧ ∀ x ∈ ((p0 :: rest).filter (fun p => p.successful)).filterMap (fun p => p.rtt),
          x ≤ (PingStats.Calculate ⟨start, p0 :: rest⟩ now rsqrt).MaxRTT) := by
  have hs : p0.successful = true := by
    rw [hwf p0 (List.mem_cons_self p0 rest), h0]
    rfl
  have hlen : (p0 :: rest).length ≠ 0 := by simp
  have hwf2 : ∀ p ∈ rest, p.successful = p.rtt.isSome :=
    fun p hp => hwf p (List.mem_cons_of_mem p0 hp)
  have hrtts : ((p0 :: rest).filter (fun p => p.successful)).filterMap (fun p => p.rtt)
      = r0 :: rest.filterMap (fun p => p.rtt) := by
    simp [List.filter_cons, hs, List.filterMap_cons, h0, filterMap_filter_succ rest hwf2]
  have hmin : (PingStats.Calculate ⟨start, p0 :: rest⟩ now rsqrt).MinRTT
      = List.foldl min r0 (rest.filterMap (fun p => p.rtt)) := by
    rw [Calculate_MinRTT start now rsqrt (p0 :: rest) hlen,
        calcLoop1_zero_step _ _ p0 rest r0 h0 hs,
        calcLoop1_MinRTT rest 1 _ _ (by omega)]
  have hmax : (PingStats.Calculate ⟨start, p0 :: rest⟩ now rsqrt).MaxRTT
      = List.foldl max r0 (rest.filterMap (fun p => p.rtt)) := by
    rw [Calculate_MaxRTT start now rsqrt (p0 :: rest) hlen,
        calcLoop1_zero_step _ _ p0 rest r0 h0 hs,
        calcLoop1_MaxRTT rest 1 _ _ (by omega)]
  rw [hrtts, hmin, hmax]
  refine ⟨⟨?_, ?_⟩, ?_, ?_⟩
  · rcases foldl_min_mem r0 (rest.filterMap (fun p => p.rtt)) with h | h
    · rw [h]
      exact List.mem_cons_self _ _
    · exact List.mem_cons_of_mem _ h
  · intro x hx
    rcases List.mem_cons.mp hx with h | h
    · subst h
      exact foldl_min_le_init _ _
    · exact foldl_min_le_mem _ _ x h
  · rcases foldl_max_mem r0 (rest.filterMap (fun p => p.rtt)) with h | h
    · rw [h]
      exact List.mem_cons_self _ _
    · exact List.mem_cons_of_mem _ h
  · intro x hx
    rcases List.mem_cons.mp hx with h | h
    · subst h
      exact foldl_max_ge_init _ _
    · exact foldl_max_ge_mem _ _ x h

/-- Witness for the amended statement of C6 at the spec example (five received
replies with RTTs 10, 12, 11, 9, 13 ms): the reported minimum is one of the
received RTTs. -/
theorem c6_minmax_witness :
    (PingStats.Calculate
        ⟨0, [⟨true, some 10000000⟩, ⟨true, some 12000000⟩, ⟨true, some 11000000⟩,
             ⟨true, some 9000000⟩, ⟨true, some 13000000⟩]⟩ 0 (fun q => q)).MinRTT
      ∈ (([⟨true, some 10000000⟩, ⟨true, some 12000000⟩, ⟨true, some 11000000⟩,
           ⟨true, some 9000000⟩, ⟨true, some 13000000⟩] : List packetStat).filter
          (fun p => p.successful)).filterMap (fun p => p.rtt) :=
  (c6_minmax_over_received_when_first_received 0 0 (fun q => q)
    ⟨true, some 10000000⟩
    [⟨true, some 12000000⟩, ⟨true, some 11000000⟩, ⟨true, some 9000000⟩,
     ⟨true, some 13000000⟩]
    10000000 rfl (by decide)).1.1

/-! ## Claim C9 -/

/-- Claim C9: `Calculate` on zero recorded probes returns the all-zero
summary — no division by zero is reached because of the early return. -/
theorem c9_calculate_empty_zero_summary (start now : Int) (rsqrt : Frac → Frac) :
    PingStats.Calculate ⟨start, []⟩ now rsqrt = ⟨0, 0, 0, 0, 0, 0, some 0⟩ :=
  rfl

/-! ## Claim C7 -/

/-- Claim C7: a time-exceeded packet whose embedded echo request references
a correlation id currently in the Ledger removes exactly that id (the id is
gone, all other ids are untouched), records exactly one loss (one
`PacketLost` appended), and does not terminate the run: `processLoop` gets
an ordinary `GoResult.ok` whose error message it merely logs. -/
theorem c7_ttl_exceeded_known_id_one_loss
    (parse : List Nat → Option IcmpMsg) (now : Int) (q : Queue) (ps : PingStats)
    (recv : packet) (m origm : IcmpMsg) (pid pseq : Nat) (t : task)
    (hp : parse recv.bytes = some m) (hty : m.type = IcmpType.timeExceeded)
    (hp2 : parse (recv.bytes.drop (recv.bytes.length - 16)) = some origm)
    (hbody : origm.body = IcmpBody.echo pid pseq)
    (hq : mapLookup q pid = some t) :
    processStep parse now q ps recv = GoResult.ok (mapDelete q pid, ps.PacketLost)
    ∧ mapLookup (mapDelete q pid) pid = none
    ∧ (∀ j, j ≠ pid → mapLookup (mapDelete q pid) j = mapLookup q j)
    ∧ (ps.PacketLost).packets = ps.packets ++ [⟨false, none⟩] := by
  refine ⟨?_, mapLookup_mapDelete_self q pid,
    fun j hj => mapLookup_mapDelete_ne q pid j hj, rfl⟩
  simp only [processStep, processRecv, hp, hty, hp2, hbody,
    unqueuePkt_found q pid t hq]

/-- Witness for C7 at a concrete time-exceeded packet whose embedded echo
request carries id 7, present in the Ledger. -/
theorem c7_ttl_exceeded_witness :
    processStep
      (fun bs => if bs.length = 16 then some ⟨IcmpType.echoReply, IcmpBody.echo 7 3⟩
                 else some ⟨IcmpType.timeExceeded, IcmpBody.otherBody⟩)
      5 [(7, ⟨7, 3, 0, 9⟩)] ⟨0, []⟩ (receivePacket [1, 2, 3] 9)
      = GoResult.ok (mapDelete [(7, ⟨7, 3, 0, 9⟩)] 7, PingStats.PacketLost ⟨0, []⟩) :=
  (c7_ttl_exceeded_known_id_one_loss
    (fun bs => if bs.length = 16 then some ⟨IcmpType.echoReply, IcmpBody.echo 7 3⟩
               else some ⟨IcmpType.timeExceeded, IcmpBody.otherBody⟩)
    5 [(7, ⟨7, 3, 0, 9⟩)] ⟨0, []⟩ (receivePacket [1, 2, 3] 9)
    ⟨IcmpType.timeExceeded, IcmpBody.otherBody⟩
    ⟨IcmpType.echoReply, IcmpBody.echo 7 3⟩
    7 3 ⟨7, 3, 0, 9⟩
    (by decide) rfl (by decide) rfl (by decide)).1

/-! ## Claim C8 -/

/-- Claim C8: a sweep with deadline `maxRTT` at clock reading `now` removes
and reports as lost exactly the Ledger entries whose send timestamp is older
than `now - maxRTT` (the kept entries are exactly those with
`now - maxRTT ≤ sendTime`, unchanged and in order), appending exactly one
loss record per removed entry. -/
theorem c8_sweep_removes_exactly_expired (now maxRTT : Int) (q : Queue)
    (ps : PingStats) :
    (sweepLoop now maxRTT q ps).1
      = q.filter (fun e => decide (now - maxRTT ≤ e.2.sendTime))
    ∧ (sweepLoop now maxRTT q ps).2.packets
      = ps.packets
        ++ List.replicate (q.countP (fun e => decide (e.2.sendTime < now - maxRTT)))
            (⟨false, none⟩ : packetStat) := by
  induction q generalizing ps with
  | nil => exact ⟨rfl, by simp [sweepLoop]⟩
  | cons e rest ih =>
    by_cases h : e.2.sendTime + maxRTT < now
    · have hkeep : (decide (now - maxRTT ≤ e.2.sendTime)) = false := by
        simp only [decide_eq_false_iff_not]
        omega
      have hexp : (decide (e.2.sendTime < now - maxRTT)) = true := by
        simp only [decide_eq_true_eq]
        omega
      obtain ⟨ih1, ih2⟩ := ih (ps.PacketLost)
      constructor
      · simp only [sweepLoop, if_pos h, List.filter_cons, hkeep]
        simpa using ih1
      · simp only [sweepLoop, if_pos h, List.countP_cons, hexp]
        rw [ih2]
        simp [PingStats.PacketLost, List.replicate_succ, List.append_assoc]
    · have hkeep : (decide (now - maxRTT ≤ e.2.sendTime)) = true := by
        simp only [decide_eq_true_eq]
        omega
      have hexp : (decide (e.2.sendTime < now - maxRTT)) = false := by
        simp only [decide_eq_false_iff_not]
        omega
      obtain ⟨ih1, ih2⟩ := ih ps
      constructor
      · simp only [sweepLoop, if_neg h, List.filter_cons, hkeep]
        simpa using ih1
      · simp only [sweepLoop, if_neg h, List.countP_cons, hexp]
        simpa using ih2

/-! ## Claim C10 -/

theorem recvBuffer_length (data : List Nat) : (recvBuffer data).length = 64 := by
  simp only [recvBuffer, List.length_append, List.length_replicate, List.length_take]
  omega

theorem processRecv_success_bytelen
    (parse : List Nat → Option IcmpMsg) (now : Int) (q : Queue) (ps : PingStats)
    (recv : packet) (e : Option String) (q2 : Queue) (ps2 : PingStats) (r : response)
    (h : processRecv parse now q ps recv = GoResult.ok (e, q2, ps2, some r)) :
    r.bytelen = recv.bytes.length := by
  unfold processRecv at h
  cases hp : parse recv.bytes with
  | none =>
    simp only [hp] at h
    simp at h
  | some m =>
    cases hty : m.type with
    | timeExceeded =>
      cases hp2 : parse (recv.bytes.drop (recv.bytes.length - 16)) with
      | none =>
        simp only [hp, hty, hp2] at h
        simp at h
      | some origm =>
        cases hbody : origm.body with
        | otherBody =>
          simp only [hp, hty, hp2, hbody] at h
          simp at h
        | echo pid pseq =>
          cases hu : unqueuePkt q pid with
          | fatal msg =>
            simp only [hp, hty, hp2, hbody, hu] at h
            simp at h
          | ok tr =>
            obtain ⟨t, oe, q3⟩ := tr
            cases oe with
            | some e2 =>
              simp only [hp, hty, hp2, hbody, hu] at h
              simp at h
            | none =>
              simp only [hp, hty, hp2, hbody, hu] at h
              simp at h
    | otherType =>
      simp only [hp, hty] at h
      simp at h
    | echoReply =>
      cases hbody : m.body with
      | otherBody =>
        simp only [hp, hty, hbody] at h
        simp at h
      | echo pid pseq =>
        cases hu : unqueuePkt q pid with
        | fatal msg =>
          simp only [hp, hty, hbody, hu] at h
          simp at h
        | ok tr =>
          obtain ⟨t, oe, q3⟩ := tr
          cases oe with
          | some e2 =>
            simp only [hp, hty, hbody, hu] at h
            simp at h
          | none =>
            simp only [hp, hty, hbody, hu] at h
            by_cases ha : recv.addr = t.addr
            · rw [if_neg (not_not_intro ha)] at h
              simp only [GoResult.ok.injEq, Prod.mk.injEq, Option.some.injEq] at h
              obtain ⟨-, -, -, hr⟩ := h
              rw [← hr]
            · rw [if_pos ha] at h
              simp at h

/-- Claim C10: every success Outcome delivered to the reporting callback for
a packet handed over by the receive loop carries byte length 64 — the fixed
length of the 64-byte receive buffer — regardless of how many bytes the
transport actually produced for the packet. -/
theorem c10_success_bytelen_always_64
    (parse : List Nat → Option IcmpMsg) (now : Int) (q : Queue) (ps : PingStats)
    (data : List Nat) (addr : Nat) (e : Option String) (q2 : Queue)
    (ps2 : PingStats) (r : response)
    (h : processRecv parse now q ps (receivePacket data addr)
        = GoResult.ok (e, q2, ps2, some r)) :
    r.bytelen = 64 := by
  rw [processRecv_success_bytelen parse now q ps (receivePacket data addr) e q2 ps2 r h]
  exact recvBuffer_length data

/-- Witness for C10: a three-byte datagram still yields a success response
reporting 64 bytes. -/
theorem c10_bytelen_witness : (⟨5, 10, 0, 64, 0⟩ : response).bytelen = 64 :=
  c10_success_bytelen_always_64 (fun _ => some ⟨IcmpType.echoReply, IcmpBody.echo 7 0⟩)
    10 [(7, ⟨7, 0, 0, 5⟩)] ⟨0, []⟩ [1, 2, 3] 5 none [] ⟨0, [⟨true, some 10⟩]⟩
    ⟨5, 10, 0, 64, 0⟩ (by decide)

end PingProof
